import Mathlib

/-!
# First-order IIR low-pass filter (`ClassyCode/src/first_order_IIR.cpp`)

A shallow embedding of the class `FirstOrderIIR` and of the properties its
specification states about it. The class is embedded twice.

* In this first part the C++ `float` members and arguments are exact
  rationals `ℚ` and every arithmetic operation of the source is the
  corresponding exact operation. It carries the properties which are stated
  for numbers and do not turn on rounding, NaN or infinities.
* The part on binary floating-point arithmetic further down embeds the same
  member functions over `float` values, with rounding, NaN and infinities. It
  carries the properties for which these matter.

Modelling conventions
* A member function that mutates the object takes the state before the call
  and returns the state after it (together with its return value, if any).
* What `set_A` writes to `Serial` is returned as a list of printed lines.
-/

/-! ## Data model -/

/-- Member data of the class `FirstOrderIIR` (`first_order_IIR.h`). -/
structure FirstOrderIIR where
  /-- The value of the filter output, which is saved between runs. -/
  filter_output : ℚ
  /-- The filter coefficient A, the feedback gain. -/
  A_coeff : ℚ
  /-- The filter coefficient B, the input gain. -/
  B_coeff : ℚ
deriving DecidableEq, Repr

/-- A line written to `Serial`. The only one this class writes is
`ERROR: Invalid filter coefficient <new_A>`. -/
inductive SerialLine where
  | invalid_filter_coefficient (new_A : ℚ)
deriving DecidableEq, Repr

namespace FirstOrderIIR

/-! ## Operations -/

/-- Constructor `FirstOrderIIR (float coeff_A, float init_val)`. -/
def FirstOrderIIR_A (coeff_A init_val : ℚ) : FirstOrderIIR :=
  { A_coeff := coeff_A
    B_coeff := 1 - coeff_A
    filter_output := init_val }

/-- Constructor `FirstOrderIIR (float RC, float delta_T, float init_val)`. -/
def FirstOrderIIR_RC (RC delta_T init_val : ℚ) : FirstOrderIIR :=
  { A_coeff := RC / (RC + delta_T)
    B_coeff := 1 - RC / (RC + delta_T)
    filter_output := init_val }

/-- Member function `run`: one step of the filter equation. Returns the value
the C++ function returns and the object after the call. -/
def run (f : FirstOrderIIR) (input : ℚ) : ℚ × FirstOrderIIR :=
  let f1 : FirstOrderIIR :=
    { f with filter_output := f.A_coeff * f.filter_output + f.B_coeff * input }
  (f1.filter_output, f1)

/-- Member function `get_output`. -/
def get_output (f : FirstOrderIIR) : ℚ :=
  f.filter_output

/-- Member function `set_A`. Returns the object after the call and the lines
written to `Serial`. -/
def set_A (f : FirstOrderIIR) (new_A : ℚ) : FirstOrderIIR × List SerialLine :=
  if new_A > 1 ∨ new_A < 0 then
    (f, [SerialLine.invalid_filter_coefficient new_A])
  else
    ({ f with A_coeff := new_A }, [])

/-- Member function `get_A`. -/
def get_A (f : FirstOrderIIR) : ℚ :=
  f.A_coeff

/-! ## Call sequences -/

/-- The object after `n` successive calls `run (input)` with the same input. -/
def run_repeat (f : FirstOrderIIR) (input : ℚ) : Nat → FirstOrderIIR
  | 0 => f
  | n + 1 => (run (run_repeat f input n) input).2

/-- A call of one of the two mutating member functions. -/
inductive Call where
  | run (input : ℚ)
  | set_A (new_A : ℚ)
deriving DecidableEq, Repr

/-- The object after one call. -/
def apply_call (f : FirstOrderIIR) : Call → FirstOrderIIR
  | Call.run input => (run f input).2
  | Call.set_A new_A => (set_A f new_A).1

/-- The object after a finite sequence of calls, first call first. -/
def apply_calls (f : FirstOrderIIR) (calls : List Call) : FirstOrderIIR :=
  calls.foldl apply_call f

/-- The calls `run (x)` for the inputs of a list, first input first: the values
returned, in order, and the object after the last call. -/
def run_list (f : FirstOrderIIR) : List ℚ → List ℚ × FirstOrderIIR
  | [] => ([], f)
  | x :: xs => ((run f x).1 :: (run_list (run f x).2 xs).1, (run_list (run f x).2 xs).2)

/-- A call of one of the two reading member functions. -/
inductive Read where
  | get_output
  | get_A
deriving DecidableEq, Repr

/-- One reading call: the value returned and the object after the call. The
bodies of `get_output` and `get_A` are a single `return` of a member, with no
assignment, so the object after the call is the object before it. -/
def apply_read (f : FirstOrderIIR) : Read → ℚ × FirstOrderIIR
  | Read.get_output => (get_output f, f)
  | Read.get_A => (get_A f, f)

/-- The same reading call made `n` times in a row: the values returned, in
order, and the object after the last call. -/
def read_repeat (f : FirstOrderIIR) (r : Read) : Nat → List ℚ × FirstOrderIIR
  | 0 => ([], f)
  | n + 1 =>
    ((apply_read f r).1 :: (read_repeat (apply_read f r).2 r n).1,
      (read_repeat (apply_read f r).2 r n).2)

end FirstOrderIIR

/-!
# Binary floating-point arithmetic of the C++ sources

The filter class and the motor simulation compute in `float` (IEEE 754
binary32), with the constant expression `1.0 - A_coeff` evaluated in `double`
(binary64). This part models those computations with their rounding.

Modelling conventions
* A floating-point value is NaN, an infinity, or a finite rational. The sign
  of a zero is not recorded; where it matters, in a division by zero, the
  zero is taken as positive.
* Every arithmetic operation returns the exact result rounded to nearest,
  ties to even, in the format of the operation, and an infinity on overflow.
* Each operation of an expression is rounded on its own; products and sums
  are not fused.
-/

/-- A value of a C++ `float` or `double`. -/
inductive FloatVal where
  /-- Not a number. -/
  | nan
  /-- An infinity, negative or positive. -/
  | inf (negative : Bool)
  /-- A finite number. -/
  | fin (v : ℚ)
deriving DecidableEq, Repr

namespace FloatVal

/-- The integer nearest to `m`, the even one of two nearest. -/
def round_half_even (m : ℚ) : ℤ :=
  if m - ⌊m⌋ < 1 / 2 then ⌊m⌋
  else if 1 / 2 < m - ⌊m⌋ then ⌊m⌋ + 1
  else if ⌊m⌋ % 2 = 0 then ⌊m⌋
  else ⌊m⌋ + 1

/-- The binary exponent used to round `x`: that of `x`, but not below `emin`
(the subnormal range). -/
def exponent (emin : ℤ) (x : ℚ) : ℤ :=
  max (Int.log 2 |x|) emin

/-- The spacing of the numbers with `prec` significant bits around `x`. -/
def quantum (prec : ℕ) (emin : ℤ) (x : ℚ) : ℚ :=
  2 ^ (exponent emin x - ((prec : ℤ) - 1))

/-- The number `x` rounded to `prec` significant bits, to nearest, ties to
even, with no bound on the exponent from above. -/
def round_unbounded (prec : ℕ) (emin : ℤ) (x : ℚ) : ℚ :=
  (round_half_even (x / quantum prec emin x) : ℚ) * quantum prec emin x

/-- The number `x` rounded into the format with `prec` significant bits and
exponents from `emin` to `emax`. -/
def round (prec : ℕ) (emin emax : ℤ) (x : ℚ) : FloatVal :=
  if 2 ^ (emax + 1) ≤ |round_unbounded prec emin x| then inf (decide (x < 0))
  else fin (round_unbounded prec emin x)

/-- Rounding to `float`, IEEE 754 binary32. -/
def round32 (x : ℚ) : FloatVal :=
  round 24 (-126) 127 x

/-- Rounding to `double`, IEEE 754 binary64. -/
def round64 (x : ℚ) : FloatVal :=
  round 53 (-1022) 1023 x

/-- The sum `a + b` in `float`. -/
def add32 : FloatVal → FloatVal → FloatVal
  | nan, _ => nan
  | _, nan => nan
  | inf s, inf t => if s = t then inf s else nan
  | inf s, fin _ => inf s
  | fin _, inf t => inf t
  | fin a, fin b => round32 (a + b)

/-- The product `a * b` in `float`. -/
def mul32 : FloatVal → FloatVal → FloatVal
  | nan, _ => nan
  | _, nan => nan
  | inf s, inf t => inf (xor s t)
  | inf s, fin b => if b = 0 then nan else inf (xor s (decide (b < 0)))
  | fin a, inf t => if a = 0 then nan else inf (xor (decide (a < 0)) t)
  | fin a, fin b => round32 (a * b)

/-- The quotient `a / b` in `float`. -/
def div32 : FloatVal → FloatVal → FloatVal
  | nan, _ => nan
  | _, nan => nan
  | inf _, inf _ => nan
  | inf s, fin b => inf (xor s (decide (b < 0)))
  | fin _, inf _ => fin 0
  | fin a, fin b =>
    if b = 0 then (if a = 0 then nan else inf (decide (a < 0)))
    else round32 (a / b)

/-- The difference `a - b` in `double`. -/
def sub64 : FloatVal → FloatVal → FloatVal
  | nan, _ => nan
  | _, nan => nan
  | inf s, inf t => if s = t then nan else inf s
  | inf s, fin _ => inf s
  | fin _, inf t => inf (!t)
  | fin a, fin b => round64 (a - b)

/-- Conversion of a `double` to `float`. -/
def to_float : FloatVal → FloatVal
  | nan => nan
  | inf s => inf s
  | fin v => round32 v

/-- The comparison `a < b`, false when either side is NaN. -/
def lt : FloatVal → FloatVal → Bool
  | fin a, fin b => decide (a < b)
  | inf true, fin _ => true
  | inf true, inf false => true
  | fin _, inf false => true
  | _, _ => false

/-- The comparison `a > b`, false when either side is NaN. -/
def gt (a b : FloatVal) : Bool :=
  lt b a

/-- The value is a number in the closed interval from 0 to 1. -/
def in_unit_interval : FloatVal → Prop
  | fin v => 0 ≤ v ∧ v ≤ 1
  | _ => False

/-- The value is one a `float` can hold. -/
def is_float : FloatVal → Prop
  | fin v => round32 v = fin v
  | _ => True

end FloatVal

/-- Member data of the class `FirstOrderIIR`, as `float` values. -/
structure FirstOrderIIR32 where
  /-- The value of the filter output, which is saved between runs. -/
  filter_output : FloatVal
  /-- The filter coefficient A, the feedback gain. -/
  A_coeff : FloatVal
  /-- The filter coefficient B, the input gain. -/
  B_coeff : FloatVal
deriving DecidableEq, Repr

/-- A line written to `Serial` by `set_A`:
`ERROR: Invalid filter coefficient <new_A>`. -/
inductive SerialLine32 where
  | invalid_filter_coefficient (new_A : FloatVal)
deriving DecidableEq, Repr

namespace FirstOrderIIR32

open FloatVal

/-- The expression `1.0 - A_coeff`: a `double` subtraction, whose result is
converted to `float` when it is stored in `B_coeff`. -/
def one_minus (a : FloatVal) : FloatVal :=
  to_float (sub64 (fin 1) a)

/-- Constructor `FirstOrderIIR (float coeff_A, float init_val)`. -/
def FirstOrderIIR_A (coeff_A init_val : FloatVal) : FirstOrderIIR32 :=
  { A_coeff := coeff_A
    B_coeff := one_minus coeff_A
    filter_output := init_val }

/-- Constructor `FirstOrderIIR (float RC, float delta_T, float init_val)`. -/
def FirstOrderIIR_RC (RC delta_T init_val : FloatVal) : FirstOrderIIR32 :=
  { A_coeff := div32 RC (add32 RC delta_T)
    B_coeff := one_minus (div32 RC (add32 RC delta_T))
    filter_output := init_val }

/-- Member function `run`: the value returned and the object after the
call. -/
def run (f : FirstOrderIIR32) (input : FloatVal) : FloatVal × FirstOrderIIR32 :=
  let f1 : FirstOrderIIR32 :=
    { f with
      filter_output := add32 (mul32 f.A_coeff f.filter_output) (mul32 f.B_coeff input) }
  (f1.filter_output, f1)

/-- Member function `get_output`. -/
def get_output (f : FirstOrderIIR32) : FloatVal :=
  f.filter_output

/-- Member function `set_A`: the object after the call and the lines written
to `Serial`. -/
def set_A (f : FirstOrderIIR32) (new_A : FloatVal) : FirstOrderIIR32 × List SerialLine32 :=
  if gt new_A (fin 1) || lt new_A (fin 0) then
    (f, [SerialLine32.invalid_filter_coefficient new_A])
  else
    ({ f with A_coeff := new_A }, [])

/-- Member function `get_A`. -/
def get_A (f : FirstOrderIIR32) : FloatVal :=
  f.A_coeff

/-- The object after `n` successive calls `run (input)` with the same input. -/
def run_repeat (f : FirstOrderIIR32) (input : FloatVal) : Nat → FirstOrderIIR32
  | 0 => f
  | n + 1 => (run (run_repeat f input n) input).2

/-- A call of one of the two mutating member functions. -/
inductive Call where
  | run (input : FloatVal)
  | set_A (new_A : FloatVal)
deriving DecidableEq, Repr

/-- The object after one call. -/
def apply_call (f : FirstOrderIIR32) : Call → FirstOrderIIR32
  | Call.run input => (run f input).2
  | Call.set_A new_A => (set_A f new_A).1

/-- The object after a finite sequence of calls, first call first. -/
def apply_calls (f : FirstOrderIIR32) (calls : List Call) : FirstOrderIIR32 :=
  calls.foldl apply_call f

/-- The object of the `float` model whose members are the numbers held by the
object `f` of the exact model. -/
def of_exact (f : FirstOrderIIR) : FirstOrderIIR32 :=
  { filter_output := fin f.filter_output
    A_coeff := fin f.A_coeff
    B_coeff := fin f.B_coeff }

/-- The calls `run (x)` for the inputs of a list, first input first: the values
returned, in order, and the object after the last call. -/
def run_list (f : FirstOrderIIR32) : List FloatVal → List FloatVal × FirstOrderIIR32
  | [] => ([], f)
  | x :: xs => ((run f x).1 :: (run_list (run f x).2 xs).1, (run_list (run f x).2 xs).2)

end FirstOrderIIR32

/-!
# Line input with echo (`WiFiDemo0/src/task_wifi.cpp`)

`enterStringWithEcho (stream, buffer, size)` reads characters from a serial
stream into `buffer` until a newline arrives or the buffer is full.

Modelling conventions
* `count` is a `uint8_t`: a natural number below 256, every update reduced
  modulo 256. `size` is a `uint8_t` as well; `size - 1` is computed in `int`.
* `ch_in` is the `int` that `stream.read ()` returned: the character code, or
  `-1` when nothing was there.
* `buffer` is a raw `char*`: the model records every write `buffer[i] = c` as
  the pair `(i, c)`, in the order the writes happen.
-/

namespace task_wifi

/-- Local state of `enterStringWithEcho` together with its visible effects. -/
structure EchoState where
  /-- The local `uint8_t count`. -/
  count : Nat
  /-- Every write `buffer[i] = c` so far, oldest first, as `(i, c)`. -/
  writes : List (Nat × Int)
  /-- The characters echoed with `stream.print`, oldest first. -/
  echoed : List Int
  /-- Whether the `return` statement has been reached. -/
  returned : Bool
deriving DecidableEq, Repr

/-- State on entry to the `while (true)` loop: `count = 0`, nothing written. -/
def EchoState.entry : EchoState :=
  { count := 0, writes := [], echoed := [], returned := false }

/-- One pass through the body of the `while (true)` loop of
`enterStringWithEcho`, for the value `ch_in` that `stream.read ()` returned.
Backspace is 8, carriage return 13, newline 10. -/
def enterStringWithEcho_step (size : Nat) (st : EchoState) (ch_in : Int) : EchoState :=
  if ch_in > 0 then
    let st1 : EchoState := { st with echoed := st.echoed ++ [ch_in] }
    if ch_in = 8 ∧ st1.count ≠ 0 then
      { st1 with count := (st1.count + 256 - 2) % 256 }
    else if ch_in = 13 then
      st1
    else if ch_in = 10 ∨ (st1.count : Int) ≥ (size : Int) - 1 then
      { st1 with writes := st1.writes ++ [(st1.count, 0)], returned := true }
    else
      { st1 with writes := st1.writes ++ [(st1.count, ch_in)], count := (st1.count + 1) % 256 }
  else
    st

/-- The loop of `enterStringWithEcho` run from state `st` on the successive
results of `stream.read ()`: it stops at the `return`, or, still waiting for
input, when the given results are used up. -/
def enterStringWithEcho_loop (size : Nat) (st : EchoState) : List Int → EchoState
  | [] => st
  | ch_in :: rest =>
    if st.returned then st
    else enterStringWithEcho_loop size (enterStringWithEcho_step size st ch_in) rest

/-- The function `enterStringWithEcho (stream, buffer, size)` on the successive
results of `stream.read ()`. -/
def enterStringWithEcho (size : Nat) (reads : List Int) : EchoState :=
  enterStringWithEcho_loop size EchoState.entry reads

end task_wifi

/-!
# Pin debouncer (`Noise and Bounce Class Practice/src/debouncer.cpp`)

Modelling conventions
* The three `uint8_t` members are natural numbers; `count = count + 1` is
  reduced modulo 256.
* The value of `digitalRead (IOpin)`, converted to `bool`, is an argument.
* `update` returns `some b` when a `return` statement with value `b` is
  reached and `none` when control reaches the closing brace of the function
  without a `return`.
-/

/-- Member data of the class `Debouncer` (`debouncer.h`). -/
structure Debouncer where
  /-- The pin which is read. -/
  IOpin : Nat
  /-- The threshold. -/
  zeros : Nat
  /-- The counter. -/
  count : Nat
deriving DecidableEq, Repr

namespace Debouncer

/-- Constructor `Debouncer (uint8_t pin, uint8_t threshold)`. -/
def Debouncer_new (pin threshold : Nat) : Debouncer :=
  { IOpin := pin, zeros := threshold, count := 0 }

/-- Member function `update`, for the value `pin_high` read from the pin:
the value returned, if a `return` is reached, and the object after the call.
The assignment `count = 0` stands after `return output;` and is never
executed. -/
def update (d : Debouncer) (pin_high : Bool) : Option Bool × Debouncer :=
  if pin_high = false then
    (some true, d)
  else
    let d1 : Debouncer := { d with count := (d.count + 1) % 256 }
    if d1.count > d1.zeros then
      (some false, d1)
    else
      (none, d1)

/-- Successive calls of `update` for a list of pin readings, first reading
first: the results of the calls, in order, and the object after the last. -/
def update_list (d : Debouncer) : List Bool → List (Option Bool) × Debouncer
  | [] => ([], d)
  | p :: ps =>
    ((update d p).1 :: (update_list (update d p).2 ps).1, (update_list (update d p).2 ps).2)

end Debouncer

/-!
# Number dissection (`Number_Biology/src/dissect.cpp`)

The `uint8_t number` is promoted to `int` before the shift. A right shift by
a negative amount has no defined value: it is modelled by `none`.
-/

namespace Number_Biology

/-- The statement `bit_value = number >> (bit_position - 1);` of `dissect`. -/
def dissect_bit_value (number : Nat) (bit_position : Int) : Option Int :=
  if bit_position - 1 < 0 then none
  else some ((number >>> (bit_position - 1).toNat : Nat) : Int)

/-- The values of `bit_value` in the passes of the loop
`for (bit_position = 0; bit_position < 8; bit_position += 1)` of `dissect`,
from `bit_position` on. -/
def dissect_loop (number : Nat) (bit_position : Int) : List (Option Int) :=
  if bit_position < 8 then
    dissect_bit_value number bit_position :: dissect_loop number (bit_position + 1)
  else
    []
termination_by (8 - bit_position).toNat
decreasing_by omega

/-- The values of `bit_value` computed by `dissect (number)`, in order. -/
def dissect (number : Nat) : List (Option Int) :=
  dissect_loop number 0

/-- The bit of `number` at position `bit_position`. -/
def bit_at (number bit_position : Nat) : Nat :=
  number / 2 ^ bit_position % 2

end Number_Biology

/-!
# Motor simulation and integer input (`Two_tasks/src/main.cpp`)

Modelling conventions
* The locals of `task_sim` are `float` values and its arithmetic is that of
  the part on binary floating-point arithmetic: every operation rounds.
* In `parseIntWithEcho`, `count` is a `uint8_t` (a natural number, every
  update reduced modulo 256), each pass of the loop receives one character
  from `stream.readBytes`, and every write `in_buf[i] = c` is recorded as the
  pair `(i, c)`. The final `atoi (in_buf)` is not modelled.
-/

namespace Two_tasks

open FloatVal

/-- The literal `0.99`, a `double`. -/
def literal_0_99 : FloatVal :=
  round64 (99 / 100)

/-- The local `float sim_A = 0.99;` of `task_sim`. -/
def sim_A : FloatVal :=
  to_float literal_0_99

/-- The local `float sim_B = 1 - 0.99;` of `task_sim`: the difference is
computed in `double` and converted to `float`. -/
def sim_B : FloatVal :=
  to_float (sub64 (fin 1) literal_0_99)

/-- One pass of the loop of `task_sim`, for the previous `sim_speed` and the
`duty_cycle_var` read from the share: the new `sim_speed`. The `int32_t` is
converted to `float` for the product. -/
def task_sim_step (sim_speed : FloatVal) (duty_cycle_var : ℤ) : FloatVal :=
  add32 (mul32 sim_speed sim_A) (mul32 (round32 (duty_cycle_var : ℚ)) sim_B)

/-- The constant `MAX_INT_DIGITS` of `parseIntWithEcho`. -/
def MAX_INT_DIGITS : Nat := 24

/-- Local state of `parseIntWithEcho` together with its visible effects. -/
structure ParseState where
  /-- The local `uint8_t count`. -/
  count : Nat
  /-- Every write `in_buf[i] = c` so far, oldest first, as `(i, c)`. -/
  writes : List (Nat × Int)
  /-- The characters echoed with `stream.print`, oldest first. -/
  echoed : List Int
  /-- Whether the `return` statement has been reached. -/
  returned : Bool
deriving DecidableEq, Repr

/-- State on entry to the `while (true)` loop: `count = 0`, nothing written. -/
def ParseState.entry : ParseState :=
  { count := 0, writes := [], echoed := [], returned := false }

/-- One pass through the body of the `while (true)` loop of
`parseIntWithEcho`, for the character `ch_in` received. Backspace is 8,
newline 10. -/
def parseIntWithEcho_step (st : ParseState) (ch_in : Int) : ParseState :=
  let st1 : ParseState :=
    { st with
      writes := st.writes ++ [(st.count, ch_in)]
      count := (st.count + 1) % 256
      echoed := st.echoed ++ [ch_in] }
  let st2 : ParseState :=
    if ch_in = 8 ∧ st1.count ≠ 0 then { st1 with count := (st1.count + 256 - 2) % 256 }
    else st1
  if ch_in = 10 ∨ st2.count ≥ MAX_INT_DIGITS - 1 then
    { st2 with writes := st2.writes ++ [(st2.count, 0)], returned := true }
  else
    st2

/-- The loop of `parseIntWithEcho` run from state `st` on the characters
received: it stops at the `return`, or, still waiting for input, when the
given characters are used up. -/
def parseIntWithEcho_loop (st : ParseState) : List Int → ParseState
  | [] => st
  | ch_in :: rest =>
    if st.returned then st
    else parseIntWithEcho_loop (parseIntWithEcho_step st ch_in) rest

/-- The function `parseIntWithEcho (stream)` on the characters received. -/
def parseIntWithEcho (received : List Int) : ParseState :=
  parseIntWithEcho_loop ParseState.entry received

end Two_tasks

/-!
# I2C bus scan (`I2c/src/main_i2c.cpp`)

Modelling conventions
* `row` and `col` are `uint8_t`: natural numbers, every update reduced
  modulo 256.
* The bus is a function from the address given to `beginTransmission` to the
  error code which `endTransmission` then returns.
* The effects of `I2C_scan` are recorded as a list of events, in order.
-/

namespace I2c

/-- What `I2C_scan` does, step by step. -/
inductive ScanEvent where
  /-- The header line of the table, `hex` and `endl`. -/
  | header
  /-- The statement `printer << row << " "`. -/
  | row_label (row : Nat)
  /-- Three blanks, printed for an address which is not probed. -/
  | skipped
  /-- The calls `bus.beginTransmission (address)` and `bus.endTransmission ()`
  followed by printing a blank, the character `printed` and a blank. -/
  | probed (address : Nat) (printed : Char)
  /-- The statement `printer << endl` which ends a row. -/
  | endl
  /-- The final `printer << dec`. -/
  | dec
deriving DecidableEq, Repr

/-- The character printed for an error code, by the chain of `if`s on `error`
in `I2C_scan`. -/
def error_symbol (error : Nat) : Char :=
  if error = 0 then '@'
  else if error = 1 then 't'
  else if error = 2 ∨ error = 3 then '-'
  else '?'

/-- The body of the inner loop of `I2C_scan`. -/
def I2C_scan_cell (bus : Nat → Nat) (row col : Nat) : ScanEvent :=
  if row = 0 ∧ col < 8 then ScanEvent.skipped
  else ScanEvent.probed (row ||| col) (error_symbol (bus (row ||| col)))

/-- The inner loop `for (uint8_t col = 0; col <= 0x0F; col++)` of `I2C_scan`,
from `col` on. -/
def I2C_scan_cols (bus : Nat → Nat) (row col : Nat) : List ScanEvent :=
  if col ≤ 0x0F then
    I2C_scan_cell bus row col :: I2C_scan_cols bus row ((col + 1) % 256)
  else
    []
termination_by 0x10 - col
decreasing_by omega

/-- The outer loop `for (uint8_t row = 0x00; row <= 0x70; row += 0x10)` of
`I2C_scan`, from `row` on. -/
def I2C_scan_rows (bus : Nat → Nat) (row : Nat) : List ScanEvent :=
  if row ≤ 0x70 then
    (ScanEvent.row_label row :: I2C_scan_cols bus row 0) ++ [ScanEvent.endl] ++
      I2C_scan_rows bus ((row + 0x10) % 256)
  else
    []
termination_by 0x80 - row
decreasing_by omega

/-- The function `I2C_scan (bus, printer)`. -/
def I2C_scan (bus : Nat → Nat) : List ScanEvent :=
  ScanEvent.header :: I2C_scan_rows bus 0x00 ++ [ScanEvent.dec]

/-- The addresses probed, in order, with the character printed for each. -/
def probes : List ScanEvent → List (Nat × Char)
  | [] => []
  | ScanEvent.probed address printed :: rest => (address, printed) :: probes rest
  | _ :: rest => probes rest

end I2c

namespace FirstOrderIIR

/-! ## Helper lemmas -/

theorem run_A_coeff (f : FirstOrderIIR) (x : ℚ) : (run f x).2.A_coeff = f.A_coeff := rfl

theorem run_B_coeff (f : FirstOrderIIR) (x : ℚ) : (run f x).2.B_coeff = f.B_coeff := rfl

theorem run_filter_output (f : FirstOrderIIR) (x : ℚ) :
    (run f x).2.filter_output = f.A_coeff * f.filter_output + f.B_coeff * x := rfl

theorem run_repeat_A_coeff (f : FirstOrderIIR) (x : ℚ) (n : Nat) :
    (run_repeat f x n).A_coeff = f.A_coeff := by
  induction n with
  | zero => rfl
  | succ k ih => simpa [run_repeat, run_A_coeff] using ih

theorem run_repeat_B_coeff (f : FirstOrderIIR) (x : ℚ) (n : Nat) :
    (run_repeat f x n).B_coeff = f.B_coeff := by
  induction n with
  | zero => rfl
  | succ k ih => simpa [run_repeat, run_B_coeff] using ih

/-- Closed form of the unit-step response from rest. -/
theorem step_output_closed (A : ℚ) (n : Nat) :
    (run_repeat (FirstOrderIIR_A A 0) 1 n).filter_output = 1 - A ^ n := by
  induction n with
  | zero => simp [run_repeat, FirstOrderIIR_A]
  | succ k ih =>
    have hA := run_repeat_A_coeff (FirstOrderIIR_A A 0) 1 k
    have hB := run_repeat_B_coeff (FirstOrderIIR_A A 0) 1 k
    simp only [run_repeat, run_filter_output, hA, hB, ih]
    simp only [FirstOrderIIR_A]
    ring

theorem set_A_filter_output (f : FirstOrderIIR) (g : ℚ) :
    (set_A f g).1.filter_output = f.filter_output := by
  unfold set_A
  split <;> rfl

theorem set_A_B_coeff (f : FirstOrderIIR) (g : ℚ) : (set_A f g).1.B_coeff = f.B_coeff := by
  unfold set_A
  split <;> rfl

theorem apply_read_state (f : FirstOrderIIR) (r : Read) : (apply_read f r).2 = f := by
  cases r <;> rfl

theorem read_repeat_same (f : FirstOrderIIR) (r : Read) (n : Nat) :
    (read_repeat f r n).1 = List.replicate n (apply_read f r).1 ∧ (read_repeat f r n).2 = f := by
  induction n with
  | zero => exact ⟨rfl, rfl⟩
  | succ k ih =>
    simp only [read_repeat, apply_read_state, ih.1, ih.2, List.replicate_succ, and_self]

/-! ## The gain setter -/

/-- C1 (defect in the code): for an in-range gain `set_A` stores the new
feedback gain but does not re-derive the input gain. On the filter built by
`FirstOrderIIR (0.5, 0.0)`, the call `set_A (0.25)` leaves `A_coeff = 0.25` and
`B_coeff = 0.5`, which is not `1 - 0.25`. -/
theorem set_A_leaves_B_coeff_stale :
    (set_A (FirstOrderIIR_A (1 / 2) 0) (1 / 4)).1.A_coeff = 1 / 4 ∧
    (set_A (FirstOrderIIR_A (1 / 2) 0) (1 / 4)).1.B_coeff = 1 / 2 ∧
    (set_A (FirstOrderIIR_A (1 / 2) 0) (1 / 4)).1.B_coeff ≠ 1 - 1 / 4 := by
  norm_num [set_A, FirstOrderIIR_A]

/-- C2 (defect in the code): the coefficient identity is not an invariant of
the reachable states. After `FirstOrderIIR (0.5, 0.0)` and the single call
`set_A (0.25)` the two coefficients add up to `0.75`, not to `1`. -/
theorem coefficient_identity_lost_after_set_A :
    (apply_calls (FirstOrderIIR_A (1 / 2) 0) [Call.set_A (1 / 4)]).A_coeff +
      (apply_calls (FirstOrderIIR_A (1 / 2) 0) [Call.set_A (1 / 4)]).B_coeff = 3 / 4 ∧
    (apply_calls (FirstOrderIIR_A (1 / 2) 0) [Call.set_A (1 / 4)]).A_coeff +
      (apply_calls (FirstOrderIIR_A (1 / 2) 0) [Call.set_A (1 / 4)]).B_coeff ≠ 1 := by
  norm_num [apply_calls, apply_call, set_A, FirstOrderIIR_A]

/-- C3: a gain above one or below zero is rejected without any change: after
`set_A (new_A)` the feedback gain, the input gain and the output all have the
values they had before the call. -/
theorem set_A_rejected_leaves_state (f : FirstOrderIIR) (new_A : ℚ)
    (h : new_A > 1 ∨ new_A < 0) :
    (set_A f new_A).1.A_coeff = f.A_coeff ∧
    (set_A f new_A).1.B_coeff = f.B_coeff ∧
    (set_A f new_A).1.filter_output = f.filter_output := by
  simp [set_A, h]

theorem set_A_rejected_leaves_state_witness :
    ((10001 / 10000 : ℚ) > 1 ∨ (10001 / 10000 : ℚ) < 0) ∧
    (set_A (FirstOrderIIR_A (1 / 2) 3) (10001 / 10000)).1.A_coeff =
      (FirstOrderIIR_A (1 / 2) 3).A_coeff ∧
    (set_A (FirstOrderIIR_A (1 / 2) 3) (10001 / 10000)).1.B_coeff =
      (FirstOrderIIR_A (1 / 2) 3).B_coeff ∧
    (set_A (FirstOrderIIR_A (1 / 2) 3) (10001 / 10000)).1.filter_output =
      (FirstOrderIIR_A (1 / 2) 3).filter_output :=
  ⟨by norm_num,
    set_A_rejected_leaves_state (FirstOrderIIR_A (1 / 2) 3) (10001 / 10000) (by norm_num)⟩

/-! ## The filter step -/

/-- C5: `run (x)` on a filter with coefficients `A`, `B` and output `y` returns
`A * y + B * x`, stores that value as the new output, and `get_output`
right afterwards returns the value `run` returned. -/
theorem run_returns_and_stores (f : FirstOrderIIR) (x : ℚ) :
    (run f x).1 = f.A_coeff * f.filter_output + f.B_coeff * x ∧
    (run f x).2.filter_output = f.A_coeff * f.filter_output + f.B_coeff * x ∧
    get_output (run f x).2 = (run f x).1 :=
  ⟨rfl, rfl, rfl⟩

/-! ## The two constructors -/

/-- C6: where `RC + delta_T` is not zero, the time-constant constructor builds
the same object (feedback gain, input gain, output) as the coefficient
constructor given `RC / (RC + delta_T)`; for `RC = 0.5`, `delta_T = 0.1` the
feedback gain is `5 / 6`. -/
theorem FirstOrderIIR_RC_eq_FirstOrderIIR_A (RC delta_T init_val : ℚ)
    (_h : RC + delta_T ≠ 0) :
    FirstOrderIIR_RC RC delta_T init_val = FirstOrderIIR_A (RC / (RC + delta_T)) init_val ∧
    (FirstOrderIIR_RC (1 / 2) (1 / 10) init_val).A_coeff = 5 / 6 := by
  refine ⟨rfl, ?_⟩
  norm_num [FirstOrderIIR_RC]

theorem FirstOrderIIR_RC_eq_FirstOrderIIR_A_witness :
    ((1 / 2 : ℚ) + 1 / 10 ≠ 0) ∧
    FirstOrderIIR_RC (1 / 2) (1 / 10) 0 = FirstOrderIIR_A ((1 / 2) / (1 / 2 + 1 / 10)) 0 ∧
    (FirstOrderIIR_RC (1 / 2) (1 / 10) 0).A_coeff = 5 / 6 :=
  ⟨by norm_num, FirstOrderIIR_RC_eq_FirstOrderIIR_A (1 / 2) (1 / 10) 0 (by norm_num)⟩

/-! ## Responses to a constant input -/

/-- C9: for a feedback gain `A` between 0 and 1, starting from output 0 and
calling `run (1.0)` again and again, each output is at most the next one and
no output exceeds 1. -/
theorem step_response_monotone (A : ℚ) (h0 : 0 ≤ A) (h1 : A ≤ 1) (n : Nat) :
    (run_repeat (FirstOrderIIR_A A 0) 1 n).filter_output ≤
      (run_repeat (FirstOrderIIR_A A 0) 1 (n + 1)).filter_output ∧
    (run_repeat (FirstOrderIIR_A A 0) 1 (n + 1)).filter_output ≤ 1 ∧
    (run_repeat (FirstOrderIIR_A A 0) 1 n).filter_output ≤ 1 := by
  rw [step_output_closed, step_output_closed]
  have hn : 0 ≤ A ^ n := pow_nonneg h0 n
  have hn1 : 0 ≤ A ^ (n + 1) := pow_nonneg h0 (n + 1)
  have hle : A ^ (n + 1) ≤ A ^ n := by
    rw [pow_succ]
    calc A ^ n * A ≤ A ^ n * 1 := mul_le_mul_of_nonneg_left h1 hn
      _ = A ^ n := mul_one _
  refine ⟨?_, ?_, ?_⟩ <;> linarith

theorem step_response_monotone_witness :
    (0 : ℚ) ≤ 1 / 2 ∧ (1 / 2 : ℚ) ≤ 1 ∧
    (run_repeat (FirstOrderIIR_A (1 / 2) 0) 1 2).filter_output ≤
      (run_repeat (FirstOrderIIR_A (1 / 2) 0) 1 (2 + 1)).filter_output ∧
    (run_repeat (FirstOrderIIR_A (1 / 2) 0) 1 (2 + 1)).filter_output ≤ 1 ∧
    (run_repeat (FirstOrderIIR_A (1 / 2) 0) 1 2).filter_output ≤ 1 :=
  ⟨by norm_num, by norm_num, step_response_monotone (1 / 2) (by norm_num) (by norm_num) 2⟩

/-! ## Construction and its edge cases -/

/-- C15: `get_output` returns the stored output and `get_A` the stored
feedback gain; neither changes the object, so any number of consecutive
reads return the same value and leave the object as it was. -/
theorem reads_are_idempotent (f : FirstOrderIIR) (r : Read) (n : Nat) :
    get_output f = f.filter_output ∧
    get_A f = f.A_coeff ∧
    (apply_read f Read.get_output).1 = f.filter_output ∧
    (apply_read f Read.get_A).1 = f.A_coeff ∧
    (apply_read f r).2 = f ∧
    (read_repeat f r n).1 = List.replicate n (apply_read f r).1 ∧
    (read_repeat f r n).2 = f :=
  ⟨rfl, rfl, rfl, rfl, apply_read_state f r, (read_repeat_same f r n).1,
    (read_repeat_same f r n).2⟩

/-- C16: the coefficient constructor with `coeff_A = 0.8333` and
`init_val = 0.0` gives feedback gain 0.8333, input gain 0.1667 and output 0;
`run (1.0)` on it returns 0.1667 and `get_output` afterwards returns the same
0.1667. -/
theorem single_sample_example :
    FirstOrderIIR_A (8333 / 10000) 0 =
      { filter_output := 0, A_coeff := 8333 / 10000, B_coeff := 1667 / 10000 } ∧
    (run (FirstOrderIIR_A (8333 / 10000) 0) 1).1 = 1667 / 10000 ∧
    get_output (run (FirstOrderIIR_A (8333 / 10000) 0) 1).2 = 1667 / 10000 := by
  refine ⟨?_, ?_, ?_⟩ <;> norm_num [FirstOrderIIR_A, run, get_output]

/-- C17: `run` changes neither the feedback gain nor the input gain, for every
state and input; `set_A`, whether it accepts or rejects its argument, never
changes the output, and neither do the reading functions: `run` is the only
member function that changes the output. -/
theorem mutator_frames (f : FirstOrderIIR) (x g : ℚ) (r : Read) :
    (run f x).2.A_coeff = f.A_coeff ∧
    (run f x).2.B_coeff = f.B_coeff ∧
    (set_A f g).1.filter_output = f.filter_output ∧
    (apply_read f r).2.filter_output = f.filter_output := by
  refine ⟨rfl, rfl, set_A_filter_output f g, ?_⟩
  rw [apply_read_state]

/-! ## The update as a convex combination of numbers -/

end FirstOrderIIR

/-!
# Rounding

Facts about rounding to nearest, ties to even.
-/

namespace FloatVal

theorem round_half_even_intCast (n : ℤ) : round_half_even (n : ℚ) = n := by
  unfold round_half_even
  simp

theorem floor_le_round_half_even (m : ℚ) : ⌊m⌋ ≤ round_half_even m := by
  unfold round_half_even
  split_ifs <;> omega

theorem round_half_even_le_floor_succ (m : ℚ) : round_half_even m ≤ ⌊m⌋ + 1 := by
  unfold round_half_even
  split_ifs <;> omega

theorem round_half_even_mono {a b : ℚ} (h : a ≤ b) : round_half_even a ≤ round_half_even b := by
  have hfl : ⌊a⌋ ≤ ⌊b⌋ := Int.floor_mono h
  rcases lt_or_eq_of_le hfl with hlt | heq
  · calc round_half_even a ≤ ⌊a⌋ + 1 := round_half_even_le_floor_succ a
      _ ≤ ⌊b⌋ := hlt
      _ ≤ round_half_even b := floor_le_round_half_even b
  · have hfr : a - ⌊a⌋ ≤ b - ⌊b⌋ := by
      rw [heq]
      linarith
    unfold round_half_even
    rw [heq]
    split_ifs <;> first | omega | (exfalso; linarith)

theorem abs_round_half_even_sub_le (m : ℚ) : |(round_half_even m : ℚ) - m| ≤ 1 / 2 := by
  have h1 := Int.floor_le m
  have h2 := Int.lt_floor_add_one m
  unfold round_half_even
  rw [abs_le]
  split_ifs <;> push_cast <;> constructor <;> linarith

theorem quantum_pos (prec : ℕ) (emin : ℤ) (x : ℚ) : 0 < quantum prec emin x := by
  unfold quantum
  positivity

theorem exponent_eq_of_bounds (emin e : ℤ) (x : ℚ) (he : emin ≤ e)
    (hlo : (2 : ℚ) ^ e ≤ |x|) (hhi : |x| < (2 : ℚ) ^ (e + 1)) : exponent emin x = e := by
  have hpos : (0 : ℚ) < |x| := lt_of_lt_of_le (by positivity) hlo
  have h1 : e ≤ Int.log 2 |x| := by
    have := (Int.zpow_le_iff_le_log (b := 2) (by norm_num) hpos (x := e)).mp (by exact_mod_cast hlo)
    exact this
  have h2 : Int.log 2 |x| < e + 1 := by
    have := (Int.lt_zpow_iff_log_lt (b := 2) (by norm_num) hpos (x := e + 1)).mp
      (by exact_mod_cast hhi)
    exact this
  unfold exponent
  rw [max_eq_left (by omega)]
  omega

theorem exponent_mono (emin : ℤ) {x y : ℚ} (hx : 0 < x) (hxy : x ≤ y) :
    exponent emin x ≤ exponent emin y := by
  unfold exponent
  have hy : 0 < y := lt_of_lt_of_le hx hxy
  rw [abs_of_pos hx, abs_of_pos hy]
  exact max_le_max (Int.log_mono_right hx hxy) le_rfl

theorem lt_zpow_exponent_succ (emin : ℤ) (x : ℚ) : |x| < (2 : ℚ) ^ (exponent emin x + 1) := by
  have h1 : |x| < (2 : ℚ) ^ (Int.log 2 |x| + 1) := by
    exact_mod_cast Int.lt_zpow_succ_log_self (b := 2) (by norm_num) |x|
  have h2 : (2 : ℚ) ^ (Int.log 2 |x| + 1) ≤ (2 : ℚ) ^ (exponent emin x + 1) := by
    apply zpow_le_zpow_right₀ (by norm_num)
    unfold exponent
    have := le_max_left (Int.log 2 |x|) emin
    omega
  exact lt_of_lt_of_le h1 h2

theorem zpow_exponent_le (emin : ℤ) (x : ℚ) (hx : 0 < |x|) (h : emin < exponent emin x) :
    (2 : ℚ) ^ exponent emin x ≤ |x| := by
  have he : exponent emin x = Int.log 2 |x| := by
    unfold exponent at h ⊢
    rcases le_total (Int.log 2 |x|) emin with hle | hle
    · rw [max_eq_right hle] at h
      omega
    · exact max_eq_left hle
  rw [he]
  exact_mod_cast Int.zpow_log_le_self (b := 2) (by norm_num) hx

theorem round_unbounded_zero (prec : ℕ) (emin : ℤ) : round_unbounded prec emin 0 = 0 := by
  unfold round_unbounded
  rw [zero_div]
  have : round_half_even 0 = 0 := by exact_mod_cast round_half_even_intCast 0
  rw [this]
  simp

theorem round_unbounded_nonneg (prec : ℕ) (emin : ℤ) {x : ℚ} (hx : 0 ≤ x) :
    0 ≤ round_unbounded prec emin x := by
  unfold round_unbounded
  have hq := quantum_pos prec emin x
  have h0 : round_half_even 0 = 0 := by exact_mod_cast round_half_even_intCast 0
  have h1 : round_half_even 0 ≤ round_half_even (x / quantum prec emin x) :=
    round_half_even_mono (div_nonneg hx (le_of_lt hq))
  rw [h0] at h1
  have h2 : (0 : ℚ) ≤ (round_half_even (x / quantum prec emin x) : ℚ) := by exact_mod_cast h1
  exact mul_nonneg h2 (le_of_lt hq)

/-- A positive number rounds to at most the next power of two above it. -/
theorem round_unbounded_le_zpow (prec : ℕ) (emin : ℤ) {x : ℚ} (hx : 0 < x) :
    round_unbounded prec emin x ≤ (2 : ℚ) ^ (exponent emin x + 1) := by
  have hq := quantum_pos prec emin x
  have hlt := lt_zpow_exponent_succ emin x
  rw [abs_of_pos hx] at hlt
  have hsplit : (2 : ℚ) ^ (exponent emin x + 1) = ((2 ^ prec : ℤ) : ℚ) * quantum prec emin x := by
    unfold quantum
    push_cast
    rw [← zpow_natCast, ← zpow_add₀ (by norm_num : (2 : ℚ) ≠ 0)]
    congr 1
    omega
  have hdiv : x / quantum prec emin x ≤ ((2 ^ prec : ℤ) : ℚ) := by
    rw [div_le_iff₀ hq, ← hsplit]
    exact le_of_lt hlt
  have hr : round_half_even (x / quantum prec emin x) ≤ 2 ^ prec := by
    have := round_half_even_mono hdiv
    rwa [round_half_even_intCast] at this
  unfold round_unbounded
  rw [hsplit]
  exact mul_le_mul_of_nonneg_right (by exact_mod_cast hr) (le_of_lt hq)

/-- A positive number above the subnormal range rounds to at least the power
of two below it. -/
theorem zpow_le_round_unbounded (prec : ℕ) (hprec : 1 ≤ prec) (emin : ℤ) {x : ℚ} (hx : 0 < x)
    (h : emin < exponent emin x) :
    (2 : ℚ) ^ exponent emin x ≤ round_unbounded prec emin x := by
  have hq := quantum_pos prec emin x
  have hle := zpow_exponent_le emin x (abs_pos.mpr (ne_of_gt hx)) h
  rw [abs_of_pos hx] at hle
  have hsplit : (2 : ℚ) ^ exponent emin x = ((2 ^ (prec - 1) : ℤ) : ℚ) * quantum prec emin x := by
    unfold quantum
    push_cast
    rw [← zpow_natCast, ← zpow_add₀ (by norm_num : (2 : ℚ) ≠ 0)]
    congr 1
    omega
  have hdiv : ((2 ^ (prec - 1) : ℤ) : ℚ) ≤ x / quantum prec emin x := by
    rw [le_div_iff₀ hq, ← hsplit]
    exact hle
  have hr : 2 ^ (prec - 1) ≤ round_half_even (x / quantum prec emin x) := by
    have := round_half_even_mono hdiv
    rwa [round_half_even_intCast] at this
  unfold round_unbounded
  rw [hsplit]
  exact mul_le_mul_of_nonneg_right (by exact_mod_cast hr) (le_of_lt hq)

/-- Rounding is monotone on the non-negative numbers. -/
theorem round_unbounded_mono (prec : ℕ) (hprec : 1 ≤ prec) (emin : ℤ) {x y : ℚ} (hx : 0 ≤ x)
    (hxy : x ≤ y) : round_unbounded prec emin x ≤ round_unbounded prec emin y := by
  rcases eq_or_lt_of_le hx with h0 | hpos
  · rw [← h0, round_unbounded_zero]
    exact round_unbounded_nonneg prec emin (le_trans hx hxy)
  · have hy : 0 < y := lt_of_lt_of_le hpos hxy
    have he := exponent_mono emin hpos hxy
    rcases eq_or_lt_of_le he with heq | hlt
    · have hqeq : quantum prec emin x = quantum prec emin y := by
        unfold quantum
        rw [heq]
      have hq := quantum_pos prec emin y
      unfold round_unbounded
      rw [hqeq]
      have hdiv : x / quantum prec emin y ≤ y / quantum prec emin y :=
        div_le_div_of_nonneg_right hxy (le_of_lt hq)
      have := round_half_even_mono hdiv
      exact mul_le_mul_of_nonneg_right (by exact_mod_cast this) (le_of_lt hq)
    · have h1 := round_unbounded_le_zpow prec emin hpos
      have hmin : emin < exponent emin y := by
        have : emin ≤ exponent emin x := le_max_right _ _
        omega
      have h2 := zpow_le_round_unbounded prec hprec emin hy hmin
      have h3 : (2 : ℚ) ^ (exponent emin x + 1) ≤ (2 : ℚ) ^ exponent emin y :=
        zpow_le_zpow_right₀ (by norm_num) (by omega)
      linarith

theorem round_unbounded_eval (prec : ℕ) (emin e : ℤ) (x : ℚ) (n : ℤ) (he : emin ≤ e)
    (hlo : (2 : ℚ) ^ e ≤ |x|) (hhi : |x| < (2 : ℚ) ^ (e + 1))
    (hn : round_half_even (x / 2 ^ (e - ((prec : ℤ) - 1))) = n) :
    round_unbounded prec emin x = (n : ℚ) * 2 ^ (e - ((prec : ℤ) - 1)) := by
  unfold round_unbounded quantum
  rw [exponent_eq_of_bounds emin e x he hlo hhi, hn]

theorem round_eval (prec : ℕ) (emin emax e : ℤ) (x : ℚ) (n : ℤ) (he : emin ≤ e)
    (hlo : (2 : ℚ) ^ e ≤ |x|) (hhi : |x| < (2 : ℚ) ^ (e + 1))
    (hn : round_half_even (x / 2 ^ (e - ((prec : ℤ) - 1))) = n)
    (hb : |(n : ℚ) * 2 ^ (e - ((prec : ℤ) - 1))| < 2 ^ (emax + 1)) :
    round prec emin emax x = fin ((n : ℚ) * 2 ^ (e - ((prec : ℤ) - 1))) := by
  unfold round
  rw [round_unbounded_eval prec emin e x n he hlo hhi hn, if_neg (not_le.mpr hb)]

/-- Evaluation of a rounding to `float`: `x` lies in the binade of `2 ^ e` and
`n` is the nearest multiple of the spacing there. -/
theorem round32_eval (x : ℚ) (e n : ℤ) (he : -126 ≤ e)
    (hlo : (2 : ℚ) ^ e ≤ |x|) (hhi : |x| < (2 : ℚ) ^ (e + 1))
    (hn : round_half_even (x / 2 ^ (e - 23)) = n)
    (hb : |(n : ℚ) * 2 ^ (e - 23)| < 2 ^ (128 : ℤ)) :
    round32 x = fin ((n : ℚ) * 2 ^ (e - 23)) :=
  round_eval 24 (-126) 127 e x n he hlo hhi hn hb

/-- Evaluation of a rounding to `double`. -/
theorem round64_eval (x : ℚ) (e n : ℤ) (he : -1022 ≤ e)
    (hlo : (2 : ℚ) ^ e ≤ |x|) (hhi : |x| < (2 : ℚ) ^ (e + 1))
    (hn : round_half_even (x / 2 ^ (e - 52)) = n)
    (hb : |(n : ℚ) * 2 ^ (e - 52)| < 2 ^ (1024 : ℤ)) :
    round64 x = fin ((n : ℚ) * 2 ^ (e - 52)) :=
  round_eval 53 (-1022) 1023 e x n he hlo hhi hn hb

theorem round_zero (prec : ℕ) (emin emax : ℤ) : round prec emin emax 0 = fin 0 := by
  unfold round
  rw [round_unbounded_zero, abs_zero, if_neg (not_le.mpr (by positivity))]

theorem round32_zero : round32 0 = fin 0 :=
  round_zero 24 (-126) 127

theorem round64_zero : round64 0 = fin 0 :=
  round_zero 53 (-1022) 1023

/-! ### Roundings of particular numbers -/

theorem round32_one : round32 1 = fin 1 := by
  have h := round32_eval 1 0 8388608 (by norm_num) (by norm_num [abs_of_pos])
    (by norm_num [abs_of_pos]) (by unfold round_half_even; norm_num) (by norm_num [abs_of_pos, abs_of_neg])
  rw [h]
  norm_num

theorem round64_one : round64 1 = fin 1 := by
  have h := round64_eval 1 0 4503599627370496 (by norm_num) (by norm_num [abs_of_pos])
    (by norm_num [abs_of_pos]) (by unfold round_half_even; norm_num) (by norm_num [abs_of_pos, abs_of_neg])
  rw [h]
  norm_num

theorem round32_two : round32 2 = fin 2 := by
  have h := round32_eval 2 1 8388608 (by norm_num) (by norm_num [abs_of_pos])
    (by norm_num [abs_of_pos]) (by unfold round_half_even; norm_num) (by norm_num [abs_of_pos, abs_of_neg])
  rw [h]
  norm_num

theorem round64_two : round64 2 = fin 2 := by
  have h := round64_eval 2 1 4503599627370496 (by norm_num) (by norm_num [abs_of_pos])
    (by norm_num [abs_of_pos]) (by unfold round_half_even; norm_num) (by norm_num [abs_of_pos, abs_of_neg])
  rw [h]
  norm_num

theorem round32_neg_one : round32 (-1) = fin (-1) := by
  have h := round32_eval (-1) 0 (-8388608) (by norm_num) (by norm_num [abs_of_neg])
    (by norm_num [abs_of_neg]) (by unfold round_half_even; norm_num) (by norm_num [abs_of_pos, abs_of_neg])
  rw [h]
  norm_num

theorem round64_neg_one : round64 (-1) = fin (-1) := by
  have h := round64_eval (-1) 0 (-4503599627370496) (by norm_num) (by norm_num [abs_of_neg])
    (by norm_num [abs_of_neg]) (by unfold round_half_even; norm_num) (by norm_num [abs_of_pos, abs_of_neg])
  rw [h]
  norm_num

theorem round32_half : round32 (1 / 2) = fin (1 / 2) := by
  have h := round32_eval (1 / 2) (-1) 8388608 (by norm_num) (by norm_num [abs_of_pos])
    (by norm_num [abs_of_pos]) (by unfold round_half_even; norm_num) (by norm_num [abs_of_pos, abs_of_neg])
  rw [h]
  norm_num

theorem round64_half : round64 (1 / 2) = fin (1 / 2) := by
  have h := round64_eval (1 / 2) (-1) 4503599627370496 (by norm_num) (by norm_num [abs_of_pos])
    (by norm_num [abs_of_pos]) (by unfold round_half_even; norm_num) (by norm_num [abs_of_pos, abs_of_neg])
  rw [h]
  norm_num

theorem round32_eighth : round32 (1 / 8) = fin (1 / 8) := by
  have h := round32_eval (1 / 8) (-3) 8388608 (by norm_num) (by norm_num [abs_of_pos])
    (by norm_num [abs_of_pos]) (by unfold round_half_even; norm_num) (by norm_num [abs_of_pos, abs_of_neg])
  rw [h]
  norm_num

theorem round32_hundred : round32 100 = fin 100 := by
  have h := round32_eval 100 6 13107200 (by norm_num) (by norm_num [abs_of_pos])
    (by norm_num [abs_of_pos]) (by unfold round_half_even; norm_num) (by norm_num [abs_of_pos, abs_of_neg])
  rw [h]
  norm_num

theorem round32_two_pow_neg_30 : round32 (1 / 1073741824) = fin (1 / 1073741824) := by
  have h := round32_eval (1 / 1073741824) (-30) 8388608 (by norm_num) (by norm_num [abs_of_pos])
    (by norm_num [abs_of_pos]) (by unfold round_half_even; norm_num) (by norm_num [abs_of_pos, abs_of_neg])
  rw [h]
  norm_num

theorem round32_one_add_two_pow_neg_30 : round32 (1073741825 / 1073741824) = fin 1 := by
  have h := round32_eval (1073741825 / 1073741824) 0 8388608 (by norm_num) (by norm_num [abs_of_pos])
    (by norm_num [abs_of_pos]) (by unfold round_half_even; norm_num) (by norm_num [abs_of_pos, abs_of_neg])
  rw [h]
  norm_num

theorem round32_two_pow_25 : round32 33554432 = fin 33554432 := by
  have h := round32_eval 33554432 25 8388608 (by norm_num) (by norm_num [abs_of_pos])
    (by norm_num [abs_of_pos]) (by unfold round_half_even; norm_num) (by norm_num [abs_of_pos, abs_of_neg])
  rw [h]
  norm_num

theorem round64_one_sub_two_pow_25 : round64 (-33554431) = fin (-33554431) := by
  have h := round64_eval (-33554431) 24 (-9007198986305536) (by norm_num) (by norm_num [abs_of_neg])
    (by norm_num [abs_of_neg]) (by unfold round_half_even; norm_num) (by norm_num [abs_of_pos, abs_of_neg])
  rw [h]
  norm_num

theorem round32_one_sub_two_pow_25 : round32 (-33554431) = fin (-33554432) := by
  have h := round32_eval (-33554431) 24 (-16777216) (by norm_num) (by norm_num [abs_of_neg])
    (by norm_num [abs_of_neg]) (by unfold round_half_even; norm_num) (by norm_num [abs_of_pos, abs_of_neg])
  rw [h]
  norm_num

theorem round64_literal_0_99 : round64 (99 / 100) = fin (4458563631096791 / 4503599627370496) := by
  have h := round64_eval (99 / 100) (-1) 8917127262193582 (by norm_num) (by norm_num [abs_of_pos])
    (by norm_num [abs_of_pos]) (by unfold round_half_even; norm_num) (by norm_num [abs_of_pos, abs_of_neg])
  rw [h]
  norm_num

theorem round32_literal_0_99 : round32 (4458563631096791 / 4503599627370496) = fin (4152361 / 4194304) := by
  have h := round32_eval (4458563631096791 / 4503599627370496) (-1) 16609444 (by norm_num) (by norm_num [abs_of_pos])
    (by norm_num [abs_of_pos]) (by unfold round_half_even; norm_num) (by norm_num [abs_of_pos, abs_of_neg])
  rw [h]
  norm_num

theorem round64_one_sub_literal_0_99 : round64 (45035996273705 / 4503599627370496) = fin (45035996273705 / 4503599627370496) := by
  have h := round64_eval (45035996273705 / 4503599627370496) (-7) 5764607523034240 (by norm_num) (by norm_num [abs_of_pos])
    (by norm_num [abs_of_pos]) (by unfold round_half_even; norm_num) (by norm_num [abs_of_pos, abs_of_neg])
  rw [h]
  norm_num

theorem round32_one_sub_literal_0_99 : round32 (45035996273705 / 4503599627370496) = fin (5368709 / 536870912) := by
  have h := round32_eval (45035996273705 / 4503599627370496) (-7) 10737418 (by norm_num) (by norm_num [abs_of_pos])
    (by norm_num [abs_of_pos]) (by unfold round_half_even; norm_num) (by norm_num [abs_of_pos, abs_of_neg])
  rw [h]
  norm_num

theorem round64_one_sub_sim_A : round64 (41943 / 4194304) = fin (41943 / 4194304) := by
  have h := round64_eval (41943 / 4194304) (-7) 5764602025476096 (by norm_num) (by norm_num [abs_of_pos])
    (by norm_num [abs_of_pos]) (by unfold round_half_even; norm_num) (by norm_num [abs_of_pos, abs_of_neg])
  rw [h]
  norm_num

theorem round32_one_sub_sim_A : round32 (41943 / 4194304) = fin (41943 / 4194304) := by
  have h := round32_eval (41943 / 4194304) (-7) 10737408 (by norm_num) (by norm_num [abs_of_pos])
    (by norm_num [abs_of_pos]) (by unfold round_half_even; norm_num) (by norm_num [abs_of_pos, abs_of_neg])
  rw [h]
  norm_num

theorem round32_hundred_mul_sim_B : round32 (134217725 / 134217728) = fin 1 := by
  have h := round32_eval (134217725 / 134217728) (-1) 16777216 (by norm_num) (by norm_num [abs_of_pos])
    (by norm_num [abs_of_pos]) (by unfold round_half_even; norm_num) (by norm_num [abs_of_pos, abs_of_neg])
  rw [h]
  norm_num

theorem round32_hundred_mul_B_coeff : round32 (1048575 / 1048576) = fin (1048575 / 1048576) := by
  have h := round32_eval (1048575 / 1048576) (-1) 16777200 (by norm_num) (by norm_num [abs_of_pos])
    (by norm_num [abs_of_pos]) (by unfold round_half_even; norm_num) (by norm_num [abs_of_pos, abs_of_neg])
  rw [h]
  norm_num

theorem round64_literal_1_0001 : round64 (10001 / 10000) = fin (4504049987333233 / 4503599627370496) := by
  have h := round64_eval (10001 / 10000) 0 4504049987333233 (by norm_num) (by norm_num [abs_of_pos])
    (by norm_num [abs_of_pos]) (by unfold round_half_even; norm_num) (by norm_num [abs_of_pos, abs_of_neg])
  rw [h]
  norm_num

theorem round32_literal_1_0001 : round32 (4504049987333233 / 4503599627370496) = fin (8389447 / 8388608) := by
  have h := round32_eval (4504049987333233 / 4503599627370496) 0 8389447 (by norm_num) (by norm_num [abs_of_pos])
    (by norm_num [abs_of_pos]) (by unfold round_half_even; norm_num) (by norm_num [abs_of_pos, abs_of_neg])
  rw [h]
  norm_num

theorem round64_literal_neg_0_0001 : round64 (-1 / 10000) = fin (-7378697629483821 / 73786976294838206464) := by
  have h := round64_eval (-1 / 10000) (-14) (-7378697629483821) (by norm_num) (by norm_num [abs_of_neg])
    (by norm_num [abs_of_neg]) (by unfold round_half_even; norm_num) (by norm_num [abs_of_pos, abs_of_neg])
  rw [h]
  norm_num

theorem round32_literal_neg_0_0001 : round32 (-7378697629483821 / 73786976294838206464) = fin (-13743895 / 137438953472) := by
  have h := round32_eval (-7378697629483821 / 73786976294838206464) (-14) (-13743895) (by norm_num) (by norm_num [abs_of_neg])
    (by norm_num [abs_of_neg]) (by unfold round_half_even; norm_num) (by norm_num [abs_of_pos, abs_of_neg])
  rw [h]
  norm_num

/-! ### Consequences for the formats -/

theorem round_unbounded_of_round_eq (prec : ℕ) (emin emax : ℤ) {x r : ℚ}
    (h : round prec emin emax x = fin r) : round_unbounded prec emin x = r := by
  unfold round at h
  split at h
  · exact absurd h (by simp)
  · exact FloatVal.fin.inj h

/-- A non-negative number rounds to a number or overflows to plus infinity. -/
theorem round_nonneg_cases (prec : ℕ) (emin emax : ℤ) {x : ℚ} (hx : 0 ≤ x) :
    round prec emin emax x = fin (round_unbounded prec emin x) ∨
      round prec emin emax x = inf false := by
  unfold round
  split
  · right
    simp [not_lt.mpr hx]
  · left
    rfl

/-- A number in the closed unit interval rounds into the closed unit
interval, in a format which holds the number 1. -/
theorem round_unit (prec : ℕ) (hprec : 1 ≤ prec) (emin emax : ℤ) (hemax : 0 ≤ emax)
    (hone : round prec emin emax 1 = fin 1) {q : ℚ} (h0 : 0 ≤ q) (h1 : q ≤ 1) :
    ∃ a : ℚ, round prec emin emax q = fin a ∧ 0 ≤ a ∧ a ≤ 1 := by
  have hu1 : round_unbounded prec emin 1 = 1 := round_unbounded_of_round_eq prec emin emax hone
  have hnn := round_unbounded_nonneg prec emin h0
  have hle : round_unbounded prec emin q ≤ 1 := by
    have := round_unbounded_mono prec hprec emin h0 h1
    rwa [hu1] at this
  refine ⟨round_unbounded prec emin q, ?_, hnn, hle⟩
  unfold round
  rw [if_neg]
  rw [not_le, abs_of_nonneg hnn]
  have h2 : (1 : ℚ) < 2 ^ (emax + 1) := by
    have : (2 : ℚ) ^ (0 : ℤ) < 2 ^ (emax + 1) := zpow_lt_zpow_right₀ (by norm_num) (by omega)
    simpa using this
  linarith

theorem round32_unit {q : ℚ} (h0 : 0 ≤ q) (h1 : q ≤ 1) :
    ∃ a : ℚ, round32 q = fin a ∧ 0 ≤ a ∧ a ≤ 1 :=
  round_unit 24 (by norm_num) (-126) 127 (by norm_num) round32_one h0 h1

theorem round64_unit {q : ℚ} (h0 : 0 ≤ q) (h1 : q ≤ 1) :
    ∃ a : ℚ, round64 q = fin a ∧ 0 ≤ a ∧ a ≤ 1 :=
  round_unit 53 (by norm_num) (-1022) 1023 (by norm_num) round64_one h0 h1

/-- A sum of a positive `float` and a positive number is, rounded to `float`,
at least that `float`, or plus infinity. -/
theorem round32_add_ge {x y : ℚ} (hx : 0 < x) (hy : 0 < y) (hfx : round32 x = fin x) :
    (∃ s : ℚ, round32 (x + y) = fin s ∧ x ≤ s) ∨ round32 (x + y) = inf false := by
  have hux : round_unbounded 24 (-126) x = x := round_unbounded_of_round_eq 24 (-126) 127 hfx
  rcases round_nonneg_cases 24 (-126) 127 (le_of_lt (add_pos hx hy)) with h | h
  · left
    refine ⟨_, h, ?_⟩
    have := round_unbounded_mono 24 (by norm_num) (-126) (le_of_lt hx)
      (le_of_lt (lt_add_of_pos_right x hy))
    rwa [hux] at this
  · right
    exact h

theorem mul32_comm (a b : FloatVal) : mul32 a b = mul32 b a := by
  cases a <;> cases b <;> simp [mul32, mul_comm, Bool.xor_comm]

end FloatVal

namespace FirstOrderIIR32

open FloatVal

/-! ## Helper lemmas for the `float` model -/

theorem run32_A_coeff (f : FirstOrderIIR32) (x : FloatVal) : (run f x).2.A_coeff = f.A_coeff := rfl

theorem run32_B_coeff (f : FirstOrderIIR32) (x : FloatVal) : (run f x).2.B_coeff = f.B_coeff := rfl

/-- For an argument which is not NaN, the test of `set_A` holds exactly
outside the closed unit interval. -/
theorem set_A32_test_iff (g : FloatVal) (hg : g ≠ nan) :
    (gt g (fin 1) || lt g (fin 0)) = true ↔ ¬ in_unit_interval g := by
  cases g with
  | nan => exact absurd rfl hg
  | inf s => cases s <;> simp [gt, lt, in_unit_interval]
  | fin v =>
    simp only [gt, lt, in_unit_interval, Bool.or_eq_true, decide_eq_true_eq, not_and, not_le]
    constructor
    · rintro (h | h) h0
      · exact h
      · linarith
    · intro h
      by_cases h0 : 0 ≤ v
      · exact Or.inl (h h0)
      · exact Or.inr (not_le.mp h0)

theorem set_A_of_in_unit (f : FirstOrderIIR32) (g : FloatVal) (h : in_unit_interval g) :
    set_A f g = ({ f with A_coeff := g }, []) := by
  have hg : g ≠ nan := by
    rintro rfl
    exact h
  have ht : ¬ ((gt g (fin 1) || lt g (fin 0)) = true) := fun hc =>
    (set_A32_test_iff g hg).mp hc h
  unfold set_A
  rw [if_neg ht]

theorem set_A_of_not_in_unit (f : FirstOrderIIR32) (g : FloatVal) (hg : g ≠ nan)
    (h : ¬ in_unit_interval g) :
    set_A f g = (f, [SerialLine32.invalid_filter_coefficient g]) := by
  unfold set_A
  rw [if_pos ((set_A32_test_iff g hg).mpr h)]

/-- The quotient `RC / (RC + delta_T)` of the second constructor, for positive
numbers, is a number in the closed unit interval. -/
theorem div32_add32_unit {RC delta_T : ℚ} (hRC : 0 < RC) (hdT : 0 < delta_T)
    (hfRC : round32 RC = fin RC) :
    ∃ a : ℚ, div32 (fin RC) (add32 (fin RC) (fin delta_T)) = fin a ∧ 0 ≤ a ∧ a ≤ 1 := by
  rcases round32_add_ge hRC hdT hfRC with ⟨s, hs, hle⟩ | hinf
  · have hspos : 0 < s := lt_of_lt_of_le hRC hle
    have hq0 : 0 ≤ RC / s := div_nonneg (le_of_lt hRC) (le_of_lt hspos)
    have hq1 : RC / s ≤ 1 := (div_le_one hspos).mpr hle
    obtain ⟨a, ha, h0, h1⟩ := round32_unit hq0 hq1
    refine ⟨a, ?_, h0, h1⟩
    simp only [add32, hs, div32, if_neg (ne_of_gt hspos), ha]
  · refine ⟨0, ?_, le_refl 0, zero_le_one⟩
    simp only [add32, hinf, div32]

/-- The input gain `1.0 - A_coeff` derived from a feedback gain in the closed
unit interval is a number in the closed unit interval. -/
theorem one_minus_unit {a : ℚ} (h0 : 0 ≤ a) (h1 : a ≤ 1) :
    ∃ b : ℚ, one_minus (fin a) = fin b ∧ 0 ≤ b ∧ b ≤ 1 := by
  obtain ⟨d, hd, hd0, hd1⟩ := round64_unit (sub_nonneg.mpr h1) (sub_le_self 1 h0)
  obtain ⟨b, hb, hb0, hb1⟩ := round32_unit hd0 hd1
  exact ⟨b, by simp only [one_minus, sub64, hd, to_float, hb], hb0, hb1⟩

/-! ## The gain setter in `float` arithmetic -/

/-- C4, as the claim states it, fails: NaN lies outside the closed interval
from 0 to 1, yet `set_A (NaN)` writes no diagnostic and stores NaN as the
feedback gain, because both comparisons of its test are false for NaN. -/
theorem set_A_accepts_nan :
    ¬ in_unit_interval nan ∧
    (set_A (of_exact (FirstOrderIIR.FirstOrderIIR_A (1 / 2) 0)) nan).2 = [] ∧
    (set_A (of_exact (FirstOrderIIR.FirstOrderIIR_A (1 / 2) 0)) nan).1.A_coeff = nan ∧
    ¬ ((set_A (of_exact (FirstOrderIIR.FirstOrderIIR_A (1 / 2) 0)) nan).2 ≠ [] ↔
      ¬ in_unit_interval nan) := by
  simp [set_A, gt, lt, in_unit_interval]

/-- C4 (amended): for every argument `g` other than NaN, `set_A (g)` fails,
that is it writes the invalid-coefficient line and leaves the object as it
was, exactly when `g` lies outside the closed interval from 0 to 1, and
otherwise stores `g` as the feedback gain. The endpoints 0 and 1 are accepted
and become the feedback gain; the `float` values of the literals 1.0001 and
-0.0001 are rejected. -/
theorem set_A_fails_iff_not_in_unit (f : FirstOrderIIR32) (g : FloatVal) (hg : g ≠ nan) :
    ((set_A f g).2 = [SerialLine32.invalid_filter_coefficient g] ↔ ¬ in_unit_interval g) ∧
    ((set_A f g).2 = [] ↔ in_unit_interval g) ∧
    (in_unit_interval g → (set_A f g).1.A_coeff = g) ∧
    (¬ in_unit_interval g → (set_A f g).1 = f) ∧
    ((set_A f (fin 0)).2 = [] ∧ (set_A f (fin 0)).1.A_coeff = fin 0) ∧
    ((set_A f (fin 1)).2 = [] ∧ (set_A f (fin 1)).1.A_coeff = fin 1) ∧
    (to_float (round64 (10001 / 10000)) = fin (8389447 / 8388608) ∧
      (set_A f (to_float (round64 (10001 / 10000)))).2 =
        [SerialLine32.invalid_filter_coefficient (fin (8389447 / 8388608))] ∧
      (set_A f (to_float (round64 (10001 / 10000)))).1 = f) ∧
    (to_float (round64 (-1 / 10000)) = fin (-13743895 / 137438953472) ∧
      (set_A f (to_float (round64 (-1 / 10000)))).2 =
        [SerialLine32.invalid_filter_coefficient (fin (-13743895 / 137438953472))] ∧
      (set_A f (to_float (round64 (-1 / 10000)))).1 = f) := by
  have hup : to_float (round64 (10001 / 10000)) = fin (8389447 / 8388608) := by
    rw [round64_literal_1_0001, to_float, round32_literal_1_0001]
  have hlow : to_float (round64 (-1 / 10000)) = fin (-13743895 / 137438953472) := by
    rw [round64_literal_neg_0_0001, to_float, round32_literal_neg_0_0001]
  refine ⟨?_, ?_, ?_, ?_, ?_, ?_, ⟨hup, ?_⟩, ⟨hlow, ?_⟩⟩
  · by_cases h : in_unit_interval g
    · simp [set_A_of_in_unit f g h, h]
    · simp [set_A_of_not_in_unit f g hg h, h]
  · by_cases h : in_unit_interval g
    · simp [set_A_of_in_unit f g h, h]
    · simp [set_A_of_not_in_unit f g hg h, h]
  · intro h
    rw [set_A_of_in_unit f g h]
  · intro h
    rw [set_A_of_not_in_unit f g hg h]
  · rw [set_A_of_in_unit f (fin 0) (by simp [in_unit_interval])]
    exact ⟨rfl, rfl⟩
  · rw [set_A_of_in_unit f (fin 1) (by simp [in_unit_interval])]
    exact ⟨rfl, rfl⟩
  · rw [hup, set_A_of_not_in_unit f _ (by simp) (by norm_num [in_unit_interval])]
    exact ⟨rfl, rfl⟩
  · rw [hlow, set_A_of_not_in_unit f _ (by simp) (by norm_num [in_unit_interval])]
    exact ⟨rfl, rfl⟩

theorem set_A_fails_iff_not_in_unit_witness :
    (inf false ≠ nan) ∧
    ((set_A (of_exact (FirstOrderIIR.FirstOrderIIR_A (1 / 2) 3)) (inf false)).2 =
      [SerialLine32.invalid_filter_coefficient (inf false)] ↔ ¬ in_unit_interval (inf false)) ∧
    (set_A (of_exact (FirstOrderIIR.FirstOrderIIR_A (1 / 2) 3)) (inf false)).1 =
      of_exact (FirstOrderIIR.FirstOrderIIR_A (1 / 2) 3) :=
  have hw := set_A_fails_iff_not_in_unit (of_exact (FirstOrderIIR.FirstOrderIIR_A (1 / 2) 3))
    (inf false) (by simp)
  ⟨by simp, hw.1, hw.2.2.2.1 (by simp [in_unit_interval])⟩

/-! ## The stability range in `float` arithmetic -/

theorem apply_call_A_coeff_unit (f : FirstOrderIIR32) (c : Call) (hc : c ≠ Call.set_A nan)
    (h : in_unit_interval f.A_coeff) : in_unit_interval (apply_call f c).A_coeff := by
  cases c with
  | run x => exact h
  | set_A g =>
    have hg : g ≠ nan := by
      rintro rfl
      exact hc rfl
    by_cases hu : in_unit_interval g
    · simp only [apply_call, set_A_of_in_unit f g hu]
      exact hu
    · simp only [apply_call, set_A_of_not_in_unit f g hg hu]
      exact h

theorem apply_calls_A_coeff_unit (calls : List Call) :
    ∀ f : FirstOrderIIR32, Call.set_A nan ∉ calls → in_unit_interval f.A_coeff →
      in_unit_interval (apply_calls f calls).A_coeff := by
  induction calls with
  | nil => intro f _ h; exact h
  | cons c cs ih =>
    intro f hn h
    have hc : c ≠ Call.set_A nan := fun e => hn (by simp [e])
    have hcs : Call.set_A nan ∉ cs := fun e => hn (List.mem_cons_of_mem c e)
    exact ih (apply_call f c) hcs (apply_call_A_coeff_unit f c hc h)

/-- C18, as the claim states it, fails: the filter built by
`FirstOrderIIR (0.5, 0.0)` has its feedback gain in the closed unit interval,
and after the single call `set_A (NaN)` the feedback gain is NaN. -/
theorem A_coeff_leaves_unit_by_set_A_nan :
    in_unit_interval (of_exact (FirstOrderIIR.FirstOrderIIR_A (1 / 2) 0)).A_coeff ∧
    (apply_calls (of_exact (FirstOrderIIR.FirstOrderIIR_A (1 / 2) 0)) [Call.set_A nan]).A_coeff =
      nan ∧
    ¬ in_unit_interval
      (apply_calls (of_exact (FirstOrderIIR.FirstOrderIIR_A (1 / 2) 0)) [Call.set_A nan]).A_coeff := by
  refine ⟨?_, ?_, ?_⟩
  · norm_num [of_exact, FirstOrderIIR.FirstOrderIIR_A, in_unit_interval]
  · simp [apply_calls, apply_call, set_A, gt, lt]
  · simp [apply_calls, apply_call, set_A, gt, lt, in_unit_interval]

/-- C18 (amended): if the feedback gain lies in the closed unit interval, then
after every finite sequence of `run` calls with arbitrary inputs and `set_A`
calls with arbitrary arguments other than NaN, out-of-range gains and
infinities included, it still lies in the closed unit interval. -/
theorem A_coeff_stays_in_unit (f : FirstOrderIIR32) (calls : List Call)
    (h : in_unit_interval f.A_coeff) (hcalls : Call.set_A nan ∉ calls) :
    in_unit_interval (apply_calls f calls).A_coeff :=
  apply_calls_A_coeff_unit calls f hcalls h

theorem A_coeff_stays_in_unit_witness :
    in_unit_interval (of_exact (FirstOrderIIR.FirstOrderIIR_A (1 / 2) 0)).A_coeff ∧
    Call.set_A nan ∉
      [Call.run (fin 3), Call.run nan, Call.set_A (fin 2), Call.set_A (fin (1 / 4)),
        Call.set_A (inf true)] ∧
    in_unit_interval (apply_calls (of_exact (FirstOrderIIR.FirstOrderIIR_A (1 / 2) 0))
      [Call.run (fin 3), Call.run nan, Call.set_A (fin 2), Call.set_A (fin (1 / 4)),
        Call.set_A (inf true)]).A_coeff :=
  have hu : in_unit_interval (of_exact (FirstOrderIIR.FirstOrderIIR_A (1 / 2) 0)).A_coeff := by
    norm_num [of_exact, FirstOrderIIR.FirstOrderIIR_A, in_unit_interval]
  have hn : Call.set_A nan ∉
      [Call.run (fin 3), Call.run nan, Call.set_A (fin 2), Call.set_A (fin (1 / 4)),
        Call.set_A (inf true)] := by
    simp
  ⟨hu, hn, A_coeff_stays_in_unit _ _ hu hn⟩

/-! ## The two constructors in `float` arithmetic -/

/-- C7, as the claim states it, fails: with the positive `float` arguments
`RC = 1` and `delta_T = 2 ^ (-30)` the sum `RC + delta_T` rounds to 1, so
the time-constant constructor yields the feedback gain 1 and the input gain
0, neither of them strictly between 0 and 1. -/
theorem FirstOrderIIR_RC_gain_reaches_one :
    is_float (fin 1) ∧ is_float (fin (1 / 1073741824)) ∧
    (FirstOrderIIR_RC (fin 1) (fin (1 / 1073741824)) (fin 0)).A_coeff = fin 1 ∧
    (FirstOrderIIR_RC (fin 1) (fin (1 / 1073741824)) (fin 0)).B_coeff = fin 0 := by
  have hsum : add32 (fin 1) (fin (1 / 1073741824)) = fin 1 := by
    simp only [add32]
    norm_num [round32_one_add_two_pow_neg_30]
  have hA : div32 (fin 1) (add32 (fin 1) (fin (1 / 1073741824))) = fin 1 := by
    rw [hsum]
    simp only [div32]
    norm_num [round32_one]
  refine ⟨round32_one, round32_two_pow_neg_30, hA, ?_⟩
  simp only [FirstOrderIIR_RC, hA, one_minus, sub64]
  norm_num [round64_zero, to_float, round32_zero]

/-- C7 (amended): for `float` arguments `time_constant > 0` and
`sample_interval > 0`, the time-constant constructor yields a feedback gain
in the closed interval from 0 to 1, and hence an input gain in the closed
interval from 0 to 1. -/
theorem FirstOrderIIR_RC_gains_in_closed_unit (RC delta_T : ℚ) (init_val : FloatVal)
    (hRC : 0 < RC) (hdT : 0 < delta_T) (hfRC : is_float (fin RC))
    (_hfdT : is_float (fin delta_T)) :
    in_unit_interval (FirstOrderIIR_RC (fin RC) (fin delta_T) init_val).A_coeff ∧
    in_unit_interval (FirstOrderIIR_RC (fin RC) (fin delta_T) init_val).B_coeff := by
  obtain ⟨a, ha, h0, h1⟩ := div32_add32_unit hRC hdT hfRC
  obtain ⟨b, hb, hb0, hb1⟩ := one_minus_unit h0 h1
  simp only [FirstOrderIIR_RC, ha, hb]
  exact ⟨⟨h0, h1⟩, ⟨hb0, hb1⟩⟩

theorem FirstOrderIIR_RC_gains_in_closed_unit_witness :
    (0 : ℚ) < 1 / 2 ∧ (0 : ℚ) < 1 / 8 ∧ is_float (fin (1 / 2)) ∧ is_float (fin (1 / 8)) ∧
    in_unit_interval (FirstOrderIIR_RC (fin (1 / 2)) (fin (1 / 8)) (fin 0)).A_coeff ∧
    in_unit_interval (FirstOrderIIR_RC (fin (1 / 2)) (fin (1 / 8)) (fin 0)).B_coeff :=
  ⟨by norm_num, by norm_num, round32_half, round32_eighth,
    FirstOrderIIR_RC_gains_in_closed_unit (1 / 2) (1 / 8) (fin 0) (by norm_num) (by norm_num)
      round32_half round32_eighth⟩

/-- C12, as the claim states it, fails: for the `float` argument
`coeff_A = 2 ^ 25` the constructor stores the input gain `1.0 - coeff_A`
rounded to `float`, which is `-(2 ^ 25)`, so the two gains add up to 0 and
not to 1. -/
theorem FirstOrderIIR_A_gains_add_up_to_zero :
    is_float (fin 33554432) ∧
    (FirstOrderIIR_A (fin 33554432) (fin 0)).A_coeff = fin 33554432 ∧
    (FirstOrderIIR_A (fin 33554432) (fin 0)).B_coeff = fin (-33554432) ∧
    (33554432 : ℚ) + (-33554432) ≠ 1 := by
  have e : (1 : ℚ) - 33554432 = -33554431 := by norm_num
  refine ⟨round32_two_pow_25, by simp only [FirstOrderIIR_A], ?_, by norm_num⟩
  simp only [FirstOrderIIR_A, one_minus, sub64]
  rw [e, round64_one_sub_two_pow_25, to_float, round32_one_sub_two_pow_25]

/-- C12 (amended): the coefficient constructor does no validation and always
yields an object: for every `coeff_A` and `init_val` the feedback gain is
`coeff_A`, the input gain is the difference `1.0 - coeff_A` computed in
`double` and rounded to `float`, and the output is `init_val`. Whenever
`coeff_A` is a number `a` for which `double` and `float` hold `1 - a`
exactly, the input gain is `1 - a` and the two gains add up to one; this is
so for the out-of-range gains 2 and -1. -/
theorem FirstOrderIIR_A_stores_rounded_complement (coeff_A init_val : FloatVal) (a : ℚ)
    (h64 : round64 (1 - a) = fin (1 - a)) (h32 : round32 (1 - a) = fin (1 - a)) :
    ((FirstOrderIIR_A coeff_A init_val).A_coeff = coeff_A ∧
      (FirstOrderIIR_A coeff_A init_val).B_coeff = to_float (sub64 (fin 1) coeff_A) ∧
      (FirstOrderIIR_A coeff_A init_val).filter_output = init_val) ∧
    ((FirstOrderIIR_A (fin a) init_val).A_coeff = fin a ∧
      (FirstOrderIIR_A (fin a) init_val).B_coeff = fin (1 - a) ∧ a + (1 - a) = 1) ∧
    ((FirstOrderIIR_A (fin 2) init_val).A_coeff = fin 2 ∧
      (FirstOrderIIR_A (fin 2) init_val).B_coeff = fin (-1) ∧ (2 : ℚ) + (-1) = 1) ∧
    ((FirstOrderIIR_A (fin (-1)) init_val).A_coeff = fin (-1) ∧
      (FirstOrderIIR_A (fin (-1)) init_val).B_coeff = fin 2 ∧ (-1 : ℚ) + 2 = 1) := by
  refine ⟨⟨rfl, rfl, rfl⟩, ⟨rfl, ?_, by ring⟩, ⟨rfl, ?_, by norm_num⟩, ⟨rfl, ?_, by norm_num⟩⟩
  · simp only [FirstOrderIIR_A, one_minus, sub64, h64, to_float, h32]
  · simp only [FirstOrderIIR_A, one_minus, sub64]
    norm_num [round64_neg_one, to_float, round32_neg_one]
  · simp only [FirstOrderIIR_A, one_minus, sub64]
    norm_num [round64_two, to_float, round32_two]

theorem FirstOrderIIR_A_stores_rounded_complement_witness :
    round64 (1 - 1 / 2) = fin (1 - 1 / 2) ∧ round32 (1 - 1 / 2) = fin (1 - 1 / 2) ∧
    (FirstOrderIIR_A (fin (1 / 2)) (fin 7)).A_coeff = fin (1 / 2) ∧
    (FirstOrderIIR_A (fin (1 / 2)) (fin 7)).B_coeff = fin (1 - 1 / 2) ∧
    (FirstOrderIIR_A (fin (1 / 2)) (fin 7)).filter_output = fin 7 :=
  have h64 : round64 (1 - 1 / 2) = fin (1 - 1 / 2) := by
    norm_num [round64_half]
  have h32 : round32 (1 - 1 / 2) = fin (1 - 1 / 2) := by
    norm_num [round32_half]
  have hw := FirstOrderIIR_A_stores_rounded_complement (fin (1 / 2)) (fin 7) (1 / 2) h64 h32
  ⟨h64, h32, hw.2.1.1, hw.2.1.2.1, hw.1.2.2⟩

/-! ## Updates computed without rounding error -/

end FirstOrderIIR32

namespace Two_tasks

open FloatVal

theorem sim_A_value : sim_A = fin (4152361 / 4194304) := by
  simp only [sim_A, literal_0_99, round64_literal_0_99, to_float, round32_literal_0_99]

theorem sim_B_value : sim_B = fin (5368709 / 536870912) := by
  simp only [sim_B, literal_0_99, round64_literal_0_99, sub64]
  norm_num [round64_one_sub_literal_0_99, to_float, round32_one_sub_literal_0_99]

/-- The object built by `FirstOrderIIR (0.99, y)`: the input gain is
`1.0 - A_coeff` for the `float` gain, which is not the `sim_B` of
`task_sim`. -/
theorem FirstOrderIIR_A_sim_A (s : FloatVal) :
    FirstOrderIIR32.FirstOrderIIR_A sim_A s =
      { filter_output := s, A_coeff := fin (4152361 / 4194304),
        B_coeff := fin (41943 / 4194304) } := by
  rw [sim_A_value]
  simp only [FirstOrderIIR32.FirstOrderIIR_A, FirstOrderIIR32.one_minus, sub64]
  norm_num [round64_one_sub_sim_A, to_float, round32_one_sub_sim_A]

/-- C22, as the claim states it, fails: for the previous `sim_speed` 0 and the
duty cycle 100, one pass of `task_sim` computes 1.0, while
`FirstOrderIIR (0.99, 0.0).run (100.0)` returns 0.99999905. The two input
gains differ: `sim_B`, the `float` of the `double` difference `1 - 0.99`, is
0.009999999776, and `B_coeff`, the `float` of `1.0 - A_coeff` for the `float`
gain, is 0.009999990463. -/
theorem task_sim_step_differs_from_run :
    task_sim_step (fin 0) 100 = fin 1 ∧
    (FirstOrderIIR32.run (FirstOrderIIR32.FirstOrderIIR_A sim_A (fin 0)) (round32 100)).1 =
      fin (1048575 / 1048576) ∧
    task_sim_step (fin 0) 100 ≠
      (FirstOrderIIR32.run (FirstOrderIIR32.FirstOrderIIR_A sim_A (fin 0)) (round32 100)).1 ∧
    sim_B = fin (5368709 / 536870912) ∧
    (FirstOrderIIR32.FirstOrderIIR_A sim_A (fin 0)).B_coeff = fin (41943 / 4194304) := by
  have h1 : task_sim_step (fin 0) 100 = fin 1 := by
    simp only [task_sim_step, sim_A_value, sim_B_value, mul32]
    norm_num [round32_zero, round32_hundred, mul32, round32_hundred_mul_sim_B, add32,
      round32_one]
  have h2 : (FirstOrderIIR32.run (FirstOrderIIR32.FirstOrderIIR_A sim_A (fin 0))
      (round32 100)).1 = fin (1048575 / 1048576) := by
    rw [FirstOrderIIR_A_sim_A, round32_hundred]
    simp only [FirstOrderIIR32.run, mul32, add32]
    norm_num [round32_zero, round32_hundred_mul_B_coeff, add32]
  refine ⟨h1, h2, ?_, sim_B_value, ?_⟩
  · rw [h1, h2]
    norm_num
  · rw [FirstOrderIIR_A_sim_A]

/-- C22 (amended): for every previous `sim_speed` and every duty cycle, one
pass of the loop of `task_sim` computes `sim_speed * sim_A + duty * sim_B` in
`float` arithmetic, with `sim_A` the `float` of 0.99 and `sim_B` the `float`
of the `double` difference `1 - 0.99`. This is the value which
`FirstOrderIIR::run` returns for the duty cycle on an object with output
`sim_speed`, feedback gain `sim_A` and input gain `sim_B`. The object built by
`FirstOrderIIR (0.99, sim_speed)` has the same feedback gain and the input
gain 0.009999990463 in place of `sim_B`, which is 0.009999999776. -/
theorem task_sim_step_is_run_with_sim_gains (sim_speed : FloatVal) (duty_cycle_var : ℤ) :
    sim_A = fin (4152361 / 4194304) ∧
    sim_B = fin (5368709 / 536870912) ∧
    task_sim_step sim_speed duty_cycle_var =
      add32 (mul32 sim_speed sim_A) (mul32 (round32 (duty_cycle_var : ℚ)) sim_B) ∧
    task_sim_step sim_speed duty_cycle_var =
      (FirstOrderIIR32.run { filter_output := sim_speed, A_coeff := sim_A, B_coeff := sim_B }
        (round32 (duty_cycle_var : ℚ))).1 ∧
    (FirstOrderIIR32.FirstOrderIIR_A sim_A sim_speed).A_coeff = sim_A ∧
    (FirstOrderIIR32.FirstOrderIIR_A sim_A sim_speed).B_coeff = fin (41943 / 4194304) := by
  refine ⟨sim_A_value, sim_B_value, rfl, ?_, rfl, ?_⟩
  · simp only [task_sim_step, FirstOrderIIR32.run]
    rw [mul32_comm sim_speed sim_A, mul32_comm (round32 (duty_cycle_var : ℚ)) sim_B]
  · rw [FirstOrderIIR_A_sim_A]

end Two_tasks

namespace task_wifi

/-! ## Line input with echo -/

/-- C19 (defect in the code): `enterStringWithEcho` can write outside the first
`size` bytes of `buffer`. With `size = 34` (the value `task_WiFi` passes) and
the received characters `a`, backspace, `x`, the backspace takes `count` from 1
to 255 (`count -= 2` on a `uint8_t`), and the next character makes the
function write the terminating NUL at `buffer[255]` and return. -/
theorem enterStringWithEcho_write_past_size :
    (enterStringWithEcho 34 [97, 8, 120]).writes = [(0, 97), (255, 0)] ∧
    (enterStringWithEcho 34 [97, 8, 120]).returned = true ∧
    ¬ (∀ w ∈ (enterStringWithEcho 34 [97, 8, 120]).writes, w.1 < 34) := by
  decide

/-- C20 (defect in the code): a backspace does not back up one character. With
three characters stored (`count = 3` after `a`, `b`, `c`) a backspace leaves
`count = 1`, not 2; with one character stored (`count = 1` after `a`) it
leaves `count = 255`, not 0. -/
theorem enterStringWithEcho_backspace_drops_two :
    (enterStringWithEcho 34 [97, 98, 99]).count = 3 ∧
    (enterStringWithEcho_step 34 (enterStringWithEcho 34 [97, 98, 99]) 8).count = 1 ∧
    (enterStringWithEcho_step 34 (enterStringWithEcho 34 [97, 98, 99]) 8).count ≠ 3 - 1 ∧
    (enterStringWithEcho 34 [97]).count = 1 ∧
    (enterStringWithEcho_step 34 (enterStringWithEcho 34 [97]) 8).count = 255 ∧
    (enterStringWithEcho_step 34 (enterStringWithEcho 34 [97]) 8).count ≠ 1 - 1 := by
  decide

end task_wifi

namespace Debouncer

/-! ## Pin debouncer -/

/-- C21 (defect in the code): a triggering `update` does return 0 and a low
reading does return 1, but the trigger does not reset `count`. On
`Debouncer (7, 0)` the first high reading returns 0 and leaves `count = 1`;
on `Debouncer (7, 2)` the third high reading triggers with `count = 3`, and
the very next high reading triggers again. -/
theorem update_trigger_leaves_count :
    (update (Debouncer_new 7 0) true).1 = some false ∧
    (update (Debouncer_new 7 0) true).2.count = 1 ∧
    (update (Debouncer_new 7 0) true).2.count ≠ 0 ∧
    (update (Debouncer_new 7 0) false).1 = some true ∧
    (update_list (Debouncer_new 7 2) [true, true, true, true]).1 =
      [none, none, some false, some false] ∧
    (update_list (Debouncer_new 7 2) [true, true, true]).2.count = 3 := by
  decide

/-- C24 (defect in the code): `update` does not reach a `return` on every
path. On `Debouncer (7, 5)` a first high reading makes `count = 1`, which is
not above the threshold, and control leaves the function without a
`return`. -/
theorem update_without_return :
    (update (Debouncer_new 7 5) true).1 = none ∧
    (update (Debouncer_new 7 5) true).2.count = 1 := by
  decide

end Debouncer

namespace Number_Biology

/-! ## Number dissection -/

/-- C23 (defect in the code): `bit_value` is not the bit of `number` at
`bit_position`. For `number = 6` and `bit_position = 1` the code computes
`6 >> 0 = 6`, which is neither 0 nor 1, while the bit at position 1 is 1; for
`bit_position = 0` the shift amount is `-1`. -/
theorem dissect_bit_value_is_no_bit :
    dissect_bit_value 6 1 = some 6 ∧
    bit_at 6 1 = 1 ∧
    dissect_bit_value 6 1 ≠ some 0 ∧
    dissect_bit_value 6 1 ≠ some 1 ∧
    dissect_bit_value 6 0 = none ∧
    dissect 6 = [none, some 6, some 3, some 1, some 0, some 0, some 0, some 0] := by
  refine ⟨by decide, by decide, by decide, by decide, by decide, ?_⟩
  simp [dissect, dissect_loop, dissect_bit_value]

end Number_Biology

namespace Two_tasks

/-! ## Motor simulation and integer input -/

/-- C26 (defect in the code): `parseIntWithEcho` can write outside `in_buf`.
When the first character received is a backspace, it is stored at
`in_buf[0]`, `count` goes from 1 to 255 (`count -= 2` on a `uint8_t`), and the
terminating NUL is written at `in_buf[255]`, beyond `MAX_INT_DIGITS = 24`. -/
theorem parseIntWithEcho_write_past_in_buf :
    (parseIntWithEcho [8]).writes = [(0, 8), (255, 0)] ∧
    (parseIntWithEcho [8]).returned = true ∧
    ¬ (∀ w ∈ (parseIntWithEcho [8]).writes, w.1 < MAX_INT_DIGITS) := by
  decide

end Two_tasks

namespace I2c

/-! ## I2C bus scan -/

theorem I2C_scan_cols_all (bus : Nat → Nat) (row : Nat) :
    I2C_scan_cols bus row 0 = (List.range 16).map (I2C_scan_cell bus row) := by
  have hr : List.range 16 = [0, 1, 2, 3, 4, 5, 6, 7, 8, 9, 10, 11, 12, 13, 14, 15] := by decide
  rw [hr]
  simp [I2C_scan_cols]

theorem I2C_scan_rows_step (bus : Nat → Nat) (row : Nat) (h : row ≤ 0x70) :
    I2C_scan_rows bus row =
      (ScanEvent.row_label row :: (List.range 16).map (I2C_scan_cell bus row)) ++
        [ScanEvent.endl] ++ I2C_scan_rows bus (row + 0x10) := by
  have hm : (row + 0x10) % 256 = row + 0x10 := by omega
  rw [I2C_scan_rows, if_pos h, hm, I2C_scan_cols_all]

theorem I2C_scan_rows_done (bus : Nat → Nat) (row : Nat) (h : 0x70 < row) :
    I2C_scan_rows bus row = [] := by
  rw [I2C_scan_rows, if_neg (by omega)]

/-- The outer loop makes exactly the eight passes for rows 0x00 to 0x70. -/
theorem I2C_scan_rows_all (bus : Nat → Nat) :
    I2C_scan_rows bus 0 =
      (List.range 8).flatMap (fun k =>
        (ScanEvent.row_label (16 * k) :: (List.range 16).map (I2C_scan_cell bus (16 * k))) ++
          [ScanEvent.endl]) := by
  rw [I2C_scan_rows_step bus 0 (by decide), I2C_scan_rows_step bus _ (by decide),
    I2C_scan_rows_step bus _ (by decide), I2C_scan_rows_step bus _ (by decide),
    I2C_scan_rows_step bus _ (by decide), I2C_scan_rows_step bus _ (by decide),
    I2C_scan_rows_step bus _ (by decide), I2C_scan_rows_step bus _ (by decide),
    I2C_scan_rows_done bus _ (by decide)]
  rfl

theorem I2C_scan_probes (bus : Nat → Nat) :
    probes (I2C_scan bus) = (List.range' 8 120).map (fun a => (a, error_symbol (bus a))) := by
  rw [I2C_scan, I2C_scan_rows_all]
  rfl

theorem I2C_scan_last (bus : Nat → Nat) : (I2C_scan bus).getLast? = some ScanEvent.dec := by
  rw [I2C_scan, I2C_scan_rows_all]
  rfl

/-- C27: `I2C_scan` runs to its last statement, and the addresses it probes
are 0x08 to 0x7F, each exactly once and in ascending order, none of them below
0x08; for each probed address it prints `@` for error code 0, `t` for 1, `-`
for 2 or 3, and `?` for any other code. -/
theorem I2C_scan_probes_each_address_once (bus : Nat → Nat) (a e : Nat) :
    (I2C_scan bus).getLast? = some ScanEvent.dec ∧
    (probes (I2C_scan bus)).map Prod.fst = List.range' 8 120 ∧
    ((probes (I2C_scan bus)).map Prod.fst).count a = (if 8 ≤ a ∧ a ≤ 0x7F then 1 else 0) ∧
    probes (I2C_scan bus) = (List.range' 8 120).map (fun a => (a, error_symbol (bus a))) ∧
    (error_symbol 0 = '@' ∧ error_symbol 1 = 't' ∧ error_symbol 2 = '-' ∧
      error_symbol 3 = '-' ∧ error_symbol (e + 4) = '?') := by
  have hp := I2C_scan_probes bus
  have hfst : (probes (I2C_scan bus)).map Prod.fst = List.range' 8 120 := by
    rw [hp, List.map_map]
    exact List.map_id _
  refine ⟨I2C_scan_last bus, hfst, ?_, hp, ?_⟩
  · rw [hfst]
    by_cases h : 8 ≤ a ∧ a ≤ 0x7F
    · rw [if_pos h]
      apply List.count_eq_one_of_mem (List.nodup_range' 8 120)
      rw [List.mem_range'_1]
      omega
    · rw [if_neg h]
      apply List.count_eq_zero_of_not_mem
      rw [List.mem_range'_1]
      omega
  · refine ⟨by decide, by decide, by decide, by decide, ?_⟩
    unfold error_symbol
    rw [if_neg (by omega), if_neg (by omega), if_neg (by omega)]

end I2c
